import Mathlib

/-!
Shallow embedding of the `httpclient` Go package (github.com/jimrobinson/httpclient):
credential store, nonce counter LRU, authorization cache, digest hash caches,
memory/file body spool, Basic/Digest authorization builders and the challenge
iteration of `Client.AuthDo`, together with theorems settling the spec claims.

Go strings are byte strings; every string this development manipulates is ASCII,
so strings are modelled as `List Char` with `Char.toNat` as the byte value.
-/

/-- Go strings, modelled as lists of (ASCII) characters. -/
abbrev GoStr := List Char

/-- Coerce a Lean string literal into the `GoStr` model. -/
def str (s : String) : GoStr := s.data

/- ------------------------------------------------------------------
counter.go: NonceCounter, an LRU cache of per-nonce counters.
The doubly linked list `ll` and the index map `m` are modelled together
as one list of items, most recently used first; the map lookup
`nc.m[nonce]` is modelled by `findNonce` and the map/list removal by
`removeNonce`.
------------------------------------------------------------------ -/

/-- counter.go `item`: a nonce key with its counter value. -/
structure CounterItem where
  k : GoStr
  n : Nat
deriving DecidableEq, Repr

/-- Model of `nc.m[nonce]`: first item with the given key. -/
def findNonce (key : GoStr) : List CounterItem → Option CounterItem
  | [] => none
  | it :: rest => if it.k == key then some it else findNonce key rest

/-- Removal of the first item with the given key (used to model
`nc.ll.MoveToFront`, which unlinks the element before relinking it at
the front). -/
def removeNonce (key : GoStr) : List CounterItem → List CounterItem
  | [] => []
  | it :: rest => if it.k == key then rest else it :: removeNonce key rest

/-- counter.go `NonceCounter`: the LRU list (front = most recently used)
and the capacity. -/
structure NonceCounter where
  ll : List CounterItem
  cap : Nat
deriving DecidableEq, Repr

/-- counter.go `NewNonceCounter`: capacity below 1 is clamped to 1. -/
def NewNonceCounter (cap : Int) : NonceCounter :=
  let cap := if cap < 1 then 1 else cap
  { ll := [], cap := cap.toNat }

/-- counter.go `NonceCounter.Next`.  On a hit the Go code moves the
element to the front and runs `v := p.Value.(item); v.n = v.n + 1;
return v.n`: the type assertion copies the boxed `item` value, so the
incremented count is returned but never written back to the list
element — the stored count is unchanged.  On a miss, when the counter
is full the back (least recently used) element is removed, and a new
item with count 1 is pushed to the front. -/
def NonceCounter.next (nc : NonceCounter) (nonce : GoStr) : Nat × NonceCounter :=
  match findNonce nonce nc.ll with
  | some p =>
    (p.n + 1, { nc with ll := p :: removeNonce nonce nc.ll })
  | none =>
    let ll := if nc.ll.length = nc.cap then nc.ll.dropLast else nc.ll
    (1, { nc with ll := ⟨nonce, 1⟩ :: ll })

/-- The nonces currently tracked, most recently used first. -/
def NonceCounter.keys (nc : NonceCounter) : List GoStr := nc.ll.map (·.k)

/-- Fold a sequence of `Next` calls, keeping only the state. -/
def NonceCounter.run (nc : NonceCounter) (ns : List GoStr) : NonceCounter :=
  ns.foldl (fun st x => (st.next x).2) nc

/- ------------------------------------------------------------------
session.go `session.Counter`: renders the counter value as `%08x`.
------------------------------------------------------------------ -/

/-- Lowercase hexadecimal digits. -/
def hexDigit (n : Nat) : Char := (str "0123456789abcdef").getD n '0'

/-- Hexadecimal rendering of a positive number, most significant digit
first (no padding); the first argument is fuel bounding the recursion
depth so that the definition is structural. -/
def toHexAux : Nat → Nat → GoStr
  | 0, _ => []
  | fuel + 1, n => if n = 0 then [] else toHexAux fuel (n / 16) ++ [hexDigit (n % 16)]

/-- Go `fmt.Sprintf "%08x"`: lowercase hex, zero-padded to 8 digits. -/
def hex8 (n : Nat) : GoStr :=
  let h := if n = 0 then str "0" else toHexAux n n
  List.replicate (8 - h.length) '0' ++ h

/-- session.go `session.Counter`: advance the nonce counter and render
the returned value as zero-padded 8-digit lowercase hex. -/
def sessionCounter (st : NonceCounter) (nonce : GoStr) : GoStr × NonceCounter :=
  let r := st.next nonce
  (hex8 r.1, r.2)

example : hex8 1 = str "00000001" := by decide
example : hex8 255 = str "000000ff" := by decide

/- ------------------------------------------------------------------
net/url: the slice of `url.URL` this package reads (Host, Path,
RawQuery and, for `RequestURI`, the path/query rendering).  Opaque
URLs, user info and fragments are never exercised by this package's
authentication paths and are not modelled.
------------------------------------------------------------------ -/

/-- Model of Go `url.URL` restricted to the fields this package reads. -/
structure Url where
  Scheme : GoStr := []
  Host : GoStr := []
  Path : GoStr := []
  RawQuery : GoStr := []
deriving DecidableEq, Repr

/-- Model of Go `URL.RequestURI()` for non-opaque URLs: the escaped
path (defaulting to "/") followed by the raw query when present. -/
def Url.requestURI (u : Url) : GoStr :=
  (if u.Path = [] then str "/" else u.Path) ++
    (if u.RawQuery = [] then [] else '?' :: u.RawQuery)

/- ------------------------------------------------------------------
authcache.go: AuthCache, a per-host ordered list of (path, auth) pairs.
The Go map `Domain map[string]AuthPaths` is modelled as an association
list keyed by host.
------------------------------------------------------------------ -/

/-- authcache.go `AuthPath`. -/
structure AuthPath where
  Path : GoStr
  Auth : GoStr
deriving DecidableEq, Repr

/-- strings.Count of a single-character substring: the number of
occurrences of that character. -/
def countChar (c : Char) (s : GoStr) : Nat := s.countP (· == c)

/-- Go byte-wise string comparison `<` (lexicographic). -/
def strLt : GoStr → GoStr → Bool
  | [], [] => false
  | [], _ :: _ => true
  | _ :: _, [] => false
  | a :: as, b :: bs =>
    if a.toNat < b.toNat then true
    else if b.toNat < a.toNat then false
    else strLt as bs

/-- authcache.go `AuthPaths.Less`: "/" sorts last, otherwise more
slash-components first, ties broken lexicographically. -/
def authPathLess (x y : AuthPath) : Bool :=
  if x.Path = str "/" && y.Path != str "/" then false
  else if x.Path != str "/" && y.Path = str "/" then true
  else
    let a := countChar '/' x.Path
    let b := countChar '/' y.Path
    if a > b then true
    else if a < b then false
    else strLt x.Path y.Path

/-- Insert into a list sorted by `authPathLess`. -/
def insertAuthPath (x : AuthPath) : List AuthPath → List AuthPath
  | [] => [x]
  | y :: ys => if authPathLess x y then x :: y :: ys else y :: insertAuthPath x ys

/-- Model of `sort.Sort(pairs)` for `AuthPaths`: the permutation sorted
by `authPathLess` (unique here because distinct paths are totally
ordered by the comparator and `Set` never stores duplicate paths). -/
def sortAuthPaths (l : List AuthPath) : List AuthPath := l.foldr insertAuthPath []

/-- authcache.go `AuthCache`: the `Domain` map as an association list. -/
abbrev AuthCache := List (GoStr × List AuthPath)

/-- Go map read `c.Domain[host]` (a missing key reads as nil). -/
def findHost (host : GoStr) : AuthCache → List AuthPath
  | [] => []
  | e :: rest => if e.1 == host then e.2 else findHost host rest

/-- Whether `c.Domain[host]` is present (`paths, ok := ...`). -/
def hasHost (host : GoStr) : AuthCache → Bool
  | [] => false
  | e :: rest => if e.1 == host then true else hasHost host rest

/-- Go map write `c.Domain[host] = pairs`. -/
def setHost (host : GoStr) (pairs : List AuthPath) : AuthCache → AuthCache
  | [] => [(host, pairs)]
  | e :: rest => if e.1 == host then (host, pairs) :: rest else e :: setHost host pairs rest

/-- authcache.go `AuthPath.Matches`.  Returns `none` where the Go code
panics: when `ap.Path` is empty and `path` is a non-empty extension,
the prefix test succeeds with `n = 0` and `ap.Path[n-1]` indexes out of
range.  In every other case the two indexed accesses are in bounds (see
`c10_authpath_matches_partiality`). -/
def AuthPath.MatchesT (ap : AuthPath) (path : GoStr) : Option Bool :=
  if ap.Path = path then some true
  else if ap.Path.isPrefixOf path then
    let n := ap.Path.length
    if n = 0 then none
    else some (ap.Path.getD (n - 1) ' ' == '/' || path.getD n ' ' == '/')
  else some false

/-- The loop body of authcache.go `AuthCache.Get`: first matching path
wins; a fall-through returns the zero value "".  `none` propagates the
`Matches` panic. -/
def authPathsGet : List AuthPath → GoStr → Option GoStr
  | [], _ => some []
  | v :: rest, path =>
    match v.MatchesT path with
    | none => none
    | some true => some v.Auth
    | some false => authPathsGet rest path

/-- authcache.go `AuthCache.Get`. -/
def authCacheGet (c : AuthCache) (uri : Url) : Option GoStr :=
  if hasHost uri.Host c then authPathsGet (findHost uri.Host c) uri.Path
  else some []

/-- authcache.go `AuthCache.Set`.  When an entry with the exact path
exists the Go code runs `v.Auth = auth; return` inside
`for _, v := range pairs` — `v` is a copy of the slice element, so the
assignment mutates the copy and the stored cache is left unchanged.
Otherwise the new pair is appended and the list re-sorted. -/
def authCacheSet (c : AuthCache) (uri : Url) (auth : GoStr) : AuthCache :=
  let pairs := findHost uri.Host c
  if pairs.any (·.Path == uri.Path) then c
  else setHost uri.Host (sortAuthPaths (pairs ++ [⟨uri.Path, auth⟩])) c

/- ------------------------------------------------------------------
credentials (OrderedCredentials source file): Credential matching and
ordered lookup.
------------------------------------------------------------------ -/

/-- ASCII lowering, the model of `strings.ToLower` on the ASCII strings
this package handles. -/
def lowerStr (s : GoStr) : GoStr := s.map Char.toLower

/-- `Credential`: a domain/path scope with a username and password. -/
structure Credential where
  Domain : GoStr
  Path : GoStr
  Username : GoStr
  Password : GoStr
deriving DecidableEq, Repr

/-- `NewCredential`: stores the domain lowercased. -/
def NewCredential (domain path username password : GoStr) : Credential :=
  { Domain := lowerStr domain, Path := path, Username := username, Password := password }

/-- `Credential.domainMatch`.  The index `s[len(s)-len(c.Domain)-1]` is
evaluated only under the suffix guard, where it is in bounds (the
equal-length case was already returned as an exact match); `getD`
models it with an irrelevant default. -/
def Credential.domainMatch (c : Credential) (domain : GoStr) : Bool :=
  let s := lowerStr domain
  if c.Domain = [] || c.Domain = s then true
  else if c.Domain.isSuffixOf s && 1 ≤ countChar '.' c.Domain then
    if s.getD (s.length - c.Domain.length - 1) ' ' == '.' then true
    else (str ".").isPrefixOf c.Domain && c.Domain.isSuffixOf s
  else (str ".").isPrefixOf c.Domain && c.Domain.isSuffixOf s

/-- `Credential.pathMatch`.  `path[len(c.Path)]` is evaluated only
under the prefix guard with the exact-equality case excluded, where it
is in bounds. -/
def Credential.pathMatch (c : Credential) (path : GoStr) : Bool :=
  if c.Path = [] || c.Path = path then true
  else if c.Path.isPrefixOf path then
    if (str "/").isSuffixOf c.Path then true
    else path.getD c.Path.length ' ' == '/'
  else false

/-- `Credential.Matches`. -/
def Credential.Matches (c : Credential) (uri : Url) : Bool :=
  c.domainMatch uri.Host && c.pathMatch uri.Path

/- ------------------------------------------------------------------
crypto/md5 and encoding/base64: models of the two standard-library
primitives the builders call, per RFC 1321 and RFC 4648.  All
arithmetic is on Nat reduced mod 2^32.
------------------------------------------------------------------ -/

/-- The bytes of an ASCII string as written by `io.WriteString`. -/
def bytes (s : GoStr) : List Nat := s.map Char.toNat

/-- RFC 1321 sine-derived round constants. -/
def md5K : List Nat :=
  [0xd76aa478, 0xe8c7b756, 0x242070db, 0xc1bdceee,
   0xf57c0faf, 0x4787c62a, 0xa8304613, 0xfd469501,
   0x698098d8, 0x8b44f7af, 0xffff5bb1, 0x895cd7be,
   0x6b901122, 0xfd987193, 0xa679438e, 0x49b40821,
   0xf61e2562, 0xc040b340, 0x265e5a51, 0xe9b6c7aa,
   0xd62f105d, 0x02441453, 0xd8a1e681, 0xe7d3fbc8,
   0x21e1cde6, 0xc33707d6, 0xf4d50d87, 0x455a14ed,
   0xa9e3e905, 0xfcefa3f8, 0x676f02d9, 0x8d2a4c8a,
   0xfffa3942, 0x8771f681, 0x6d9d6122, 0xfde5380c,
   0xa4beea44, 0x4bdecfa9, 0xf6bb4b60, 0xbebfbc70,
   0x289b7ec6, 0xeaa127fa, 0xd4ef3085, 0x04881d05,
   0xd9d4d039, 0xe6db99e5, 0x1fa27cf8, 0xc4ac5665,
   0xf4292244, 0x432aff97, 0xab9423a7, 0xfc93a039,
   0x655b59c3, 0x8f0ccc92, 0xffeff47d, 0x85845dd1,
   0x6fa87e4f, 0xfe2ce6e0, 0xa3014314, 0x4e0811a1,
   0xf7537e82, 0xbd3af235, 0x2ad7d2bb, 0xeb86d391]

/-- RFC 1321 per-round left-rotation amounts. -/
def md5S : List Nat :=
  [7, 12, 17, 22, 7, 12, 17, 22, 7, 12, 17, 22, 7, 12, 17, 22,
   5, 9, 14, 20, 5, 9, 14, 20, 5, 9, 14, 20, 5, 9, 14, 20,
   4, 11, 16, 23, 4, 11, 16, 23, 4, 11, 16, 23, 4, 11, 16, 23,
   6, 10, 15, 21, 6, 10, 15, 21, 6, 10, 15, 21, 6, 10, 15, 21]

/-- 32-bit left rotation. -/
def rotl32 (x s : Nat) : Nat := ((x <<< s) ||| (x >>> (32 - s))) % 4294967296

/-- One of the 64 MD5 steps: state is `(a, b, c, d)`, `M` the 16
message words of the current block, `i` the step index. -/
def md5step (M : List Nat) (st : Nat × Nat × Nat × Nat) (i : Nat) : Nat × Nat × Nat × Nat :=
  let a := st.1
  let b := st.2.1
  let c := st.2.2.1
  let d := st.2.2.2
  let f :=
    if i < 16 then (b &&& c) ||| ((b ^^^ 0xffffffff) &&& d)
    else if i < 32 then (d &&& b) ||| ((d ^^^ 0xffffffff) &&& c)
    else if i < 48 then b ^^^ c ^^^ d
    else c ^^^ (b ||| (d ^^^ 0xffffffff))
  let g :=
    if i < 16 then i
    else if i < 32 then (5 * i + 1) % 16
    else if i < 48 then (3 * i + 5) % 16
    else (7 * i) % 16
  let tmp := (a + f + md5K.getD i 0 + M.getD g 0) % 4294967296
  (d, (b + rotl32 tmp (md5S.getD i 0)) % 4294967296, b, c)

/-- Process one 16-word block. -/
def md5block (st : Nat × Nat × Nat × Nat) (M : List Nat) : Nat × Nat × Nat × Nat :=
  let r := (List.range 64).foldl (md5step M) st
  ((st.1 + r.1) % 4294967296, (st.2.1 + r.2.1) % 4294967296,
   (st.2.2.1 + r.2.2.1) % 4294967296, (st.2.2.2 + r.2.2.2) % 4294967296)

/-- `k` little-endian bytes of `x`. -/
def leBytes : Nat → Nat → List Nat
  | 0, _ => []
  | k + 1, x => x % 256 :: leBytes k (x / 256)

/-- RFC 1321 padding: a 0x80 byte, zeros to 56 mod 64, then the bit
length as 8 little-endian bytes. -/
def md5pad (msg : List Nat) : List Nat :=
  msg ++ 0x80 :: List.replicate ((119 - msg.length % 64) % 64) 0 ++ leBytes 8 (msg.length * 8)

/-- Little-endian 32-bit words of a byte list. -/
def toWords : List Nat → List Nat
  | b0 :: b1 :: b2 :: b3 :: rest => (b0 + 256 * (b1 + 256 * (b2 + 256 * b3))) :: toWords rest
  | _ => []

/-- Fold `md5block` over successive groups of 16 words; the first
argument is fuel bounding the recursion (the word count suffices). -/
def md5blocks : Nat → Nat × Nat × Nat × Nat → List Nat → Nat × Nat × Nat × Nat
  | 0, st, _ => st
  | fuel + 1, st, ws =>
    if ws = [] then st else md5blocks fuel (md5block st (ws.take 16)) (ws.drop 16)

/-- The 16-byte MD5 digest of a byte string. -/
def md5bytes (msg : List Nat) : List Nat :=
  let ws := toWords (md5pad msg)
  let r := md5blocks ws.length (0x67452301, 0xefcdab89, 0x98badcfe, 0x10325476) ws
  leBytes 4 r.1 ++ leBytes 4 r.2.1 ++ leBytes 4 r.2.2.1 ++ leBytes 4 r.2.2.2

/-- Two lowercase hex digits of one byte. -/
def hexByte (b : Nat) : GoStr := [hexDigit (b / 16), hexDigit (b % 16)]

/-- Lowercase hex of a byte string, as `fmt.Sprintf "%x"` renders an
MD5 sum. -/
def hexBytes : List Nat → GoStr
  | [] => []
  | b :: rest => hexByte b ++ hexBytes rest

/-- `fmt.Sprintf "%x" (md5 of msg)`. -/
def md5hex (msg : List Nat) : GoStr := hexBytes (md5bytes msg)

/-- RFC 4648 standard alphabet. -/
def b64char (n : Nat) : Char :=
  (str "ABCDEFGHIJKLMNOPQRSTUVWXYZabcdefghijklmnopqrstuvwxyz0123456789+/").getD n 'A'

/-- `base64.StdEncoding.EncodeToString`. -/
def b64encode : List Nat → GoStr
  | [] => []
  | [b0] => [b64char (b0 >>> 2), b64char ((b0 % 4) <<< 4), '=', '=']
  | [b0, b1] =>
    [b64char (b0 >>> 2), b64char (((b0 % 4) <<< 4) + (b1 >>> 4)),
     b64char ((b1 % 16) <<< 2), '=']
  | b0 :: b1 :: b2 :: rest =>
    b64char (b0 >>> 2) :: b64char (((b0 % 4) <<< 4) + (b1 >>> 4)) ::
    b64char (((b1 % 16) <<< 2) + (b2 >>> 6)) :: b64char (b2 % 64) :: b64encode rest

set_option maxRecDepth 100000

example : md5hex (bytes (str "")) = str "d41d8cd98f00b204e9800998ecf8427e" := by decide
example : md5hex (bytes (str "abc")) = str "900150983cd24fb0d6963f7d28e17f72" := by decide
example : b64encode (bytes (str "Aladdin:open sesame")) = str "QWxhZGRpbjpvcGVuIHNlc2FtZQ==" := by decide

/- ------------------------------------------------------------------
Builder errors.  Go uses error values: the sentinel `NoCredentialsErr`
(compared by identity in AuthDo) and `fmt.Errorf` messages for the
unrecognized-scheme and unhandled-algorithm failures.
------------------------------------------------------------------ -/

/-- The builder-side errors of the package. -/
inductive AuthErr where
  | noCredentials
  | unrecognizedScheme (scheme : GoStr)
  | unhandledAlgorithm (alg : GoStr)
deriving DecidableEq, Repr

/-- `OrderedCredentials.Login`: first credential matching the URI wins;
otherwise the `NoCredentialsErr` sentinel. -/
def OrderedCredentials.Login (v : List Credential) (uri : Url) (_realm : GoStr) :
    Except AuthErr (GoStr × GoStr) :=
  match v.find? (fun c => c.Matches uri) with
  | some c => .ok (c.Username, c.Password)
  | none => .error .noCredentials

/- ------------------------------------------------------------------
session.go: the session state.  `CNonce` reads 12 random bytes in the
source; randomness has no shallow embedding, so the value the session
will return is carried as the oracle field `cnonce` (the digest test
overrides `CNonce` to return the fixed string "0a4f113b").
------------------------------------------------------------------ -/

/-- Go map read on a `map[string]string` (missing key reads ""). -/
def findKey (key : GoStr) : List (GoStr × GoStr) → GoStr
  | [] => []
  | e :: rest => if e.1 == key then e.2 else findKey key rest

/-- Go map write on a `map[string]string`. -/
def setKey (key value : GoStr) : List (GoStr × GoStr) → List (GoStr × GoStr)
  | [] => [(key, value)]
  | e :: rest => if e.1 == key then (key, value) :: rest else e :: setKey key value rest

/-- session.go `session`: credentials, authorization cache, the two
digest hash maps, the nonce counter and the spool configuration,
plus the `cnonce` oracle described above. -/
structure SessionState where
  credentials : List Credential
  authcache : AuthCache
  md5cred : List (GoStr × GoStr)
  md5sess : List (GoStr × GoStr)
  counter : NonceCounter
  rcDir : GoStr
  rcLimit : Int
  cnonce : GoStr
deriving DecidableEq, Repr

/-- session.go `NewSession` (with the `cnonce` oracle appended). -/
def NewSession (credentials : List Credential) (nonceCap : Int) (dir : GoStr)
    (limit : Int) (cnonce : GoStr) : SessionState :=
  { credentials := credentials, authcache := [], md5cred := [], md5sess := [],
    counter := NewNonceCounter nonceCap, rcDir := dir, rcLimit := limit, cnonce := cnonce }

/-- session.go `session.DigestCredentials`: reads only the `host:/`
key. -/
def digestCredentials (st : SessionState) (uri : Url) : GoStr :=
  findKey (uri.Host ++ str ":/") st.md5cred

/-- Model of `url.Parse` followed by `uri.ResolveReference` for
absolute-path references, the only reference form this development
instantiates (`SetDigestCredentials` resolves the literal "/" when the
challenge advertises no domain).  Other reference forms are treated as
unresolved and skipped, like a `url.Parse` failure in the source. -/
def resolveRef (base : Url) (ref : GoStr) : Option Url :=
  if (str "/").isPrefixOf ref then
    some { Scheme := base.Scheme, Host := base.Host, Path := ref }
  else none

/-- session.go `session.SetDigestCredentials`.  The source preallocates
`spaces := make([]string, len(domain))` — `len(domain)` empty strings —
and then appends the resolved `host:path` keys to it, so the loop that
follows also stores the hash under the empty-string holes. -/
def setDigestCredentials (st : SessionState) (uri : Url) (domain : List GoStr)
    (cred : GoStr) : SessionState :=
  let domain := if domain.length = 0 then domain ++ [str "/"] else domain
  let spaces := List.replicate domain.length ([] : GoStr) ++
    domain.filterMap (fun s => (resolveRef uri s).map (fun abs => abs.Host ++ str ":" ++ abs.Path))
  { st with md5cred := spaces.foldl (fun m space => setKey space cred m) st.md5cred }

/-- session.go `session.DigestSession`. -/
def digestSession (st : SessionState) (server : GoStr) : GoStr :=
  findKey server st.md5sess

/-- session.go `session.SetDigestSession`. -/
def setDigestSession (st : SessionState) (server value : GoStr) : SessionState :=
  { st with md5sess := setKey server value st.md5sess }

/- ------------------------------------------------------------------
Challenge and the Basic/Digest builders.
------------------------------------------------------------------ -/

/-- The parsed `WWW-Authenticate` challenge record. -/
structure Challenge where
  Scheme : GoStr := []
  Realm : GoStr := []
  Domain : List GoStr := []
  Nonce : GoStr := []
  Opaque : GoStr := []
  Stale : Bool := false
  Algorithm : GoStr := []
  Qop : List GoStr := []
deriving DecidableEq, Repr

/-- Model of Go `http.Request` restricted to what the builders read.
`Host` mirrors `http.Request.Host`, which `http.NewRequest` sets from
the URL; `Body` is the byte stream (already spooled in the model). -/
structure Request where
  Method : GoStr
  URL : Url
  Host : GoStr
  Body : Option (List Nat) := none
deriving DecidableEq, Repr

/-- `Challenge.Basic`: base64 of `user:pass`. -/
def Challenge.Basic (challenge : Challenge) (st : SessionState) (req : Request) :
    Except AuthErr (GoStr × SessionState) :=
  match OrderedCredentials.Login st.credentials req.URL challenge.Realm with
  | .error e => .error e
  | .ok up => .ok (str "Basic " ++ b64encode (bytes (up.1 ++ str ":" ++ up.2)), st)

/-- The qop-selection loop of `Challenge.Digest`: "auth-int" wins over
"auth"; other values are ignored. -/
def selectQop (qops : List GoStr) : GoStr :=
  qops.foldl
    (fun qop v =>
      if v = str "auth" then (if qop = str "auth-int" then qop else v)
      else if v = str "auth-int" then v
      else qop)
    []

/-- `Challenge.Digest`, per RFC 2617 section 3.2.2.  Follows the
source order: login, cnonce, qop selection, nonce counter (only when
qop is set), `H(A1)` through the digest-credentials cache, the
`MD5-sess` session hash, `H(A2)` (hashing the spooled body for
auth-int), the request digest, and the header assembly in the source's
exact order and quoting.  `CNonce` is the oracle; the auth-int body
replacement is an I/O no-op in the pure model. -/
def Challenge.Digest (challenge : Challenge) (st : SessionState) (req : Request) :
    Except AuthErr (GoStr × SessionState) :=
  match OrderedCredentials.Login st.credentials req.URL challenge.Realm with
  | .error e => .error e
  | .ok up =>
    let username := up.1
    let password := up.2
    let cnonce := st.cnonce
    let qop := selectQop challenge.Qop
    let ncSt : GoStr × SessionState :=
      if qop ≠ [] then
        let r := st.counter.next challenge.Nonce
        (hex8 r.1, { st with counter := r.2 })
      else ([], st)
    let nc := ncSt.1
    let st1 := ncSt.2
    if challenge.Algorithm = [] || challenge.Algorithm = str "MD5" ||
        challenge.Algorithm = str "MD5-sess" then
      let cached := digestCredentials st1 req.URL
      let ha1St : GoStr × SessionState :=
        if cached = [] then
          let ha1 := md5hex (bytes (username ++ str ":" ++ challenge.Realm ++ str ":" ++ password))
          (ha1, setDigestCredentials st1 req.URL challenge.Domain ha1)
        else (cached, st1)
      let sessSt : GoStr × SessionState :=
        if challenge.Algorithm = str "MD5-sess" then
          let m := digestSession ha1St.2 req.Host
          if m = [] then
            let m := md5hex (bytes (ha1St.1 ++ str ":" ++ challenge.Nonce ++ str ":" ++ cnonce))
            (m, setDigestSession ha1St.2 req.Host m)
          else (m, ha1St.2)
        else ha1St
      let ha1 := sessSt.1
      let st2 := sessSt.2
      let ha2 :=
        if qop = [] || qop = str "auth" then
          md5hex (bytes (req.Method ++ str ":" ++ req.URL.requestURI))
        else if qop = str "auth-int" then
          let bodyHash := md5hex (match req.Body with | some b => b | none => [])
          md5hex (bytes (req.Method ++ str ":" ++ req.URL.requestURI ++ str ":" ++ bodyHash))
        else []
      let digest :=
        if qop = str "auth" || qop = str "auth-int" then
          md5hex (bytes (ha1 ++ str ":" ++ challenge.Nonce ++ str ":" ++ nc ++ str ":" ++
            cnonce ++ str ":" ++ qop ++ str ":" ++ ha2))
        else
          md5hex (bytes (ha1 ++ str ":" ++ challenge.Nonce ++ str ":" ++ ha2))
      let auth :=
        str "Digest username=\"" ++ username ++ str "\"" ++
        str ", realm=\"" ++ challenge.Realm ++ str "\"" ++
        str ", nonce=\"" ++ challenge.Nonce ++ str "\"" ++
        str ", uri=\"" ++ req.URL.requestURI ++ str "\"" ++
        (if qop ≠ [] then
          str ", qop=" ++ qop ++ str ", nc=" ++ nc ++ str ", cnonce=\"" ++ cnonce ++ str "\""
        else []) ++
        (if challenge.Algorithm ≠ [] then str ", algorithm=" ++ challenge.Algorithm else []) ++
        str ", response=\"" ++ digest ++ str "\"" ++
        (if challenge.Opaque ≠ [] then str ", opaque=\"" ++ challenge.Opaque ++ str "\"" else [])
      .ok (auth, st2)
    else .error (.unhandledAlgorithm challenge.Algorithm)

/-- `Challenge.Authorization`: dispatch on the scheme; any scheme other
than Basic or Digest is the unrecognized-scheme error. -/
def Challenge.Authorization (challenge : Challenge) (st : SessionState) (req : Request) :
    Except AuthErr (GoStr × SessionState) :=
  if challenge.Scheme = str "Basic" then challenge.Basic st req
  else if challenge.Scheme = str "Digest" then challenge.Digest st req
  else .error (.unrecognizedScheme challenge.Scheme)

/- ------------------------------------------------------------------
httpclient.go `Client.AuthDo`: the retry loop over the parsed
challenge list.  The transport (`hr.Do`) and the builder act on shared
mutable request/session state in the source; the loop is modelled over
oracles for their per-challenge results, which preserves the control
flow (continue / return) the error-policy claims are about.  The body
duplication is I/O plumbing that does not alter that flow and is not
modelled.
------------------------------------------------------------------ -/

/-- Result of one `hr.Do` resend: a response with its status code, or a
transport error. -/
inductive DoResult where
  | response (status : Nat)
  | transportErr (msg : GoStr)
deriving DecidableEq, Repr

/-- The `(rsp, err)` pair AuthDo returns: a response (err = nil), a
builder error, or a transport error from the last resend. -/
inductive AuthDoResult where
  | response (status : Nat)
  | builderErr (e : AuthErr)
  | transportErr (msg : GoStr)
deriving DecidableEq, Repr

/-- The challenge iteration of `Client.AuthDo`.  `builder` is the
result of `challenge.Authorization(session, req)`, `hrDo` the result of
resending with the produced header; `acc` is the current `(rsp, err)`
pair (initially the original 401 response), returned unchanged when
the list is exhausted.  On a builder error the driver continues only
when the error is the `NoCredentialsErr` sentinel and the challenge is
not the last one (`lastTry := i+1 == n`); on success with a non-empty
header it resends, returning on any non-401 response and otherwise
iterating with the updated `(rsp, err)`. -/
def authDoLoop (builder : Challenge → Except AuthErr GoStr)
    (hrDo : Challenge → GoStr → DoResult) :
    List Challenge → AuthDoResult → AuthDoResult
  | [], acc => acc
  | challenge :: rest, acc =>
    match builder challenge with
    | .error e =>
      if e = .noCredentials ∧ rest ≠ [] then authDoLoop builder hrDo rest acc
      else .builderErr e
    | .ok auth =>
      if auth ≠ [] then
        match hrDo challenge auth with
        | .response s =>
          if s ≠ 401 then .response s
          else authDoLoop builder hrDo rest (.response s)
        | .transportErr m => authDoLoop builder hrDo rest (.transportErr m)
      else authDoLoop builder hrDo rest acc

/- ------------------------------------------------------------------
proxy_read_closer.go: MemFileReadCloser, the in-memory-or-file body
spool.  The temporary file is modelled by its byte contents; file
creation, writes and opens are error-free in the model.
------------------------------------------------------------------ -/

/-- proxy_read_closer.go `MemFileReadCloser`: the spill limit, the
in-memory buffer, the temp-file contents (`none` while no file has
been created), the directory, and the ReadCloser-used flag. -/
structure MemFileReadCloser where
  limit : Int
  buf : List Nat
  fh : Option (List Nat)
  dir : GoStr
  used : Bool
deriving DecidableEq, Repr

/-- proxy_read_closer.go `NewMemFileReadCloser`. -/
def NewMemFileReadCloser (dir : GoStr) (limit : Int) : MemFileReadCloser :=
  { limit := limit, buf := [], fh := none, dir := dir, used := false }

/-- proxy_read_closer.go `MemFileReadCloser.Write`: writes go to the
temp file once it exists; otherwise they append to the buffer, and
when the buffer length exceeds the (non-negative) limit the buffer is
dumped to a fresh temp file and reset. -/
def MemFileReadCloser.write (w : MemFileReadCloser) (p : List Nat) : MemFileReadCloser :=
  match w.fh with
  | some f => { w with fh := some (f ++ p) }
  | none =>
    let buf := w.buf ++ p
    if w.limit < 0 ∨ (buf.length : Int) ≤ w.limit then { w with buf := buf }
    else { w with fh := some buf, buf := [] }

/-- Fold a sequence of writes. -/
def MemFileReadCloser.writeAll (w : MemFileReadCloser) (ps : List (List Nat)) : MemFileReadCloser :=
  ps.foldl MemFileReadCloser.write w

/-- The bytes the reader returned by `ReadCloser` yields: the reopened
temp file when one exists, the in-memory buffer otherwise (mirroring
`readCloser.Read`). -/
def MemFileReadCloser.content (w : MemFileReadCloser) : List Nat :=
  match w.fh with
  | some f => f
  | none => w.buf

/-- proxy_read_closer.go `MemFileReadCloser.ReadCloser`: at most one
reader; returns the reader's bytes and the marked-used state. -/
def MemFileReadCloser.readCloser (w : MemFileReadCloser) :
    Except GoStr (List Nat × MemFileReadCloser) :=
  if w.used then .error (str "ReadCloser has already been used")
  else .ok (w.content, { w with used := true })

/- ------------------------------------------------------------------
Concrete fixtures: the literal RFC 2617 scenarios of the test suite.
------------------------------------------------------------------ -/

/-- The S2 session: sole credential Mufasa at host.com:/, nonce
capacity 1000, no spool directory, limit -1, and a test session whose
`CNonce` returns "0a4f113b". -/
def mufasaSession : SessionState :=
  NewSession [NewCredential (str "host.com") (str "/") (str "Mufasa") (str "Circle Of Life")]
    1000 [] (-1) (str "0a4f113b")

/-- The S2 Digest challenge (qop narrowed to ["auth"] by the test). -/
def s2Challenge : Challenge :=
  { Scheme := str "Digest", Realm := str "testrealm@host.com",
    Nonce := str "dcd98b7102dd2f0e8b11d0f600bfb0c093",
    Opaque := str "5ccc069c403ebaf9f0171e9517f40e41",
    Qop := [str "auth"] }

/-- The S2 request: GET http://host.com/dir/index.html. -/
def s2Request : Request :=
  { Method := str "GET",
    URL := { Scheme := str "http", Host := str "host.com", Path := str "/dir/index.html" },
    Host := str "host.com" }

/-- The spill invariant: while no temp file exists the buffer respects
a non-negative limit; once a file exists the limit is non-negative and
the file contents exceed it. -/
def spillInv (w : MemFileReadCloser) : Prop :=
  (w.fh = none ∧ (0 ≤ w.limit → (w.buf.length : Int) ≤ w.limit)) ∨
  (∃ f, w.fh = some f ∧ 0 ≤ w.limit ∧ w.limit < (f.length : Int))

/-- The URI used to exhibit the authorization-cache update bug. -/
def c2Url : Url :=
  { Scheme := str "http", Host := str "example.com", Path := str "/a" }

/-- The S1 session: sole credential Aladdin at example.com:/. -/
def aladdinSession : SessionState :=
  NewSession [NewCredential (str "example.com") (str "/") (str "Aladdin") (str "open sesame")]
    1000 [] (-1) []

/-- The S1 Basic challenge. -/
def basicChallenge : Challenge :=
  { Scheme := str "Basic", Realm := str "WallyWorld" }

/-- A challenge whose scheme is neither Basic nor Digest. -/
def fooChallenge : Challenge :=
  { Scheme := str "NewScheme" }

/-- The S1 request: GET http://example.com/. -/
def s1Request : Request :=
  { Method := str "GET",
    URL := { Scheme := str "http", Host := str "example.com", Path := str "/" },
    Host := str "example.com" }

/-- The builder as AuthDo invokes it, instantiated with the S1 session
and request. -/
def s1Builder (c : Challenge) : Except AuthErr GoStr :=
  (c.Authorization aladdinSession s1Request).map (fun r => r.1)

/- ==================================================================
Claims
================================================================== -/

/-- C1: the claim asserts `Counter(n)` yields the contiguous sequence
1, 2, 3, … for an uninterrupted nonce.  Evaluating the code at the
failing input: the third call on the same nonce returns the rendering
of 2 again, because `Next` increments a copy of the stored item and
never writes it back, so the sequence is 1, 2, 2, 2, … -/
theorem c1_counter_repeats_after_second_call :
    (sessionCounter (NewNonceCounter 1000) (str "n")).1 = str "00000001" ∧
    (sessionCounter (sessionCounter (NewNonceCounter 1000) (str "n")).2 (str "n")).1 =
      str "00000002" ∧
    (sessionCounter (sessionCounter (sessionCounter (NewNonceCounter 1000) (str "n")).2
        (str "n")).2 (str "n")).1 = str "00000002" ∧
    str "00000002" ≠ str "00000003" := by
  decide

/-- C2: the claim asserts a second `Set` with the same host and exact
path updates the entry so `Get` returns the newer header.  Evaluating
the code at the failing input: `Set` assigns the new header to a range
copy of the slice element and returns, so the cache keeps the old
header and `Get` still returns it. -/
theorem c2_set_same_path_keeps_old_header :
    authCacheGet (authCacheSet (authCacheSet [] c2Url (str "old")) c2Url (str "new")) c2Url =
      some (str "old") ∧ str "old" ≠ str "new" := by
  decide

/-- C3: the literal RFC 2617 S2 scenario.  `Challenge.Digest` returns
exactly the expected Authorization header, parameters in the source's
order and quoting, with the algorithm parameter omitted because the
challenge's algorithm is empty. -/
theorem c3_rfc2617_digest_header :
    (Challenge.Digest s2Challenge mufasaSession s2Request).map (fun r => r.1) =
      .ok (str "Digest username=\"Mufasa\", realm=\"testrealm@host.com\", nonce=\"dcd98b7102dd2f0e8b11d0f600bfb0c093\", uri=\"/dir/index.html\", qop=auth, nc=00000001, cnonce=\"0a4f113b\", response=\"6629fae49393a05397450978507c4ef1\", opaque=\"5ccc069c403ebaf9f0171e9517f40e41\"") := by
  rfl

/-- C4: the claim asserts `SetDigestCredentials` with an empty domain
list stores the hash under exactly the single key `host + ":/"`.
Evaluating the code at the failing input: the preallocated slice leaves
an empty-string hole, so the map ends up with the two keys "" and
"host.com:/". -/
theorem c4_empty_domain_stores_hole_key :
    (setDigestCredentials (NewSession [] 1000 [] (-1) [])
        { Scheme := str "http", Host := str "host.com", Path := str "/dir/index.html" }
        [] (str "feedface")).md5cred =
      [([], str "feedface"), (str "host.com:/", str "feedface")] ∧
    ([] : GoStr) ≠ str "host.com:/" := by
  decide

/-- C5 counterexample: with an unrecognized-scheme challenge followed
by a Basic challenge that would succeed, the driver surfaces the
unrecognized-scheme error immediately instead of proceeding to the
next challenge. -/
theorem c5_driver_aborts_on_unrecognized_scheme :
    authDoLoop s1Builder (fun _ _ => .response 200) [fooChallenge, basicChallenge]
        (.response 401) = .builderErr (.unrecognizedScheme (str "NewScheme")) ∧
    s1Builder basicChallenge = .ok (str "Basic QWxhZGRpbjpvcGVuIHNlc2FtZQ==") := by
  exact ⟨rfl, rfl⟩

/-- C5 amended: for every challenge whose scheme is neither Basic nor
Digest, the builder returns the unrecognized-scheme error, and the
driver aborts the iteration and surfaces that error regardless of how
many challenges remain (it continues only on NoCredentials). -/
theorem c5_unrecognized_scheme_aborts (st : SessionState) (req : Request)
    (hrDo : Challenge → GoStr → DoResult) (c : Challenge) (rest : List Challenge)
    (acc : AuthDoResult) (hb : c.Scheme ≠ str "Basic") (hd : c.Scheme ≠ str "Digest") :
    c.Authorization st req = .error (.unrecognizedScheme c.Scheme) ∧
    authDoLoop (fun ch => (ch.Authorization st req).map (fun r => r.1)) hrDo
        (c :: rest) acc = .builderErr (.unrecognizedScheme c.Scheme) := by
  have hauth : c.Authorization st req = .error (.unrecognizedScheme c.Scheme) := by
    simp [Challenge.Authorization, hb, hd]
  refine ⟨hauth, ?_⟩
  simp [authDoLoop, hauth, Except.map]

/-- C5 amended, witness: the general theorem applied to the concrete
unrecognized-scheme challenge, session and request of the
counterexample. -/
theorem c5_unrecognized_scheme_aborts_witness :
    fooChallenge.Authorization aladdinSession s1Request =
        .error (.unrecognizedScheme (str "NewScheme")) ∧
    authDoLoop (fun ch => (ch.Authorization aladdinSession s1Request).map (fun r => r.1))
        (fun _ _ => .response 200) [fooChallenge, basicChallenge] (.response 401) =
      .builderErr (.unrecognizedScheme (str "NewScheme")) := by
  exact c5_unrecognized_scheme_aborts aladdinSession s1Request (fun _ _ => .response 200)
    fooChallenge [basicChallenge] (.response 401) (by decide) (by decide)

/-- Writing never changes the reader bytes except by appending the
written chunk: in-buffer, on spill, and in-file alike. -/
theorem MemFileReadCloser.write_of_fh_some (w : MemFileReadCloser) (f p : List Nat)
    (h : w.fh = some f) : w.write p = { w with fh := some (f ++ p) } := by
  unfold MemFileReadCloser.write
  rw [h]

theorem MemFileReadCloser.write_of_fh_none_stay (w : MemFileReadCloser) (p : List Nat)
    (h : w.fh = none) (hc : w.limit < 0 ∨ ((w.buf ++ p).length : Int) ≤ w.limit) :
    w.write p = { w with buf := w.buf ++ p } := by
  unfold MemFileReadCloser.write
  rw [h]
  exact if_pos hc

theorem MemFileReadCloser.write_of_fh_none_spill (w : MemFileReadCloser) (p : List Nat)
    (h : w.fh = none) (hc : ¬(w.limit < 0 ∨ ((w.buf ++ p).length : Int) ≤ w.limit)) :
    w.write p = { w with fh := some (w.buf ++ p), buf := [] } := by
  unfold MemFileReadCloser.write
  rw [h]
  exact if_neg hc

/-- Writing never changes the reader bytes except by appending the
written chunk: in-buffer, on spill, and in-file alike. -/
theorem MemFileReadCloser.content_write (w : MemFileReadCloser) (p : List Nat) :
    (w.write p).content = w.content ++ p := by
  match hfh : w.fh with
  | some f =>
    rw [MemFileReadCloser.write_of_fh_some w f p hfh]
    simp [MemFileReadCloser.content, hfh]
  | none =>
    by_cases hc : w.limit < 0 ∨ ((w.buf ++ p).length : Int) ≤ w.limit
    · rw [MemFileReadCloser.write_of_fh_none_stay w p hfh hc]
      simp [MemFileReadCloser.content, hfh]
    · rw [MemFileReadCloser.write_of_fh_none_spill w p hfh hc]
      simp [MemFileReadCloser.content, hfh]

/-- The reader bytes after a write sequence are the previous bytes
followed by the concatenated chunks. -/
theorem MemFileReadCloser.content_writeAll (w : MemFileReadCloser) (ps : List (List Nat)) :
    (w.writeAll ps).content = w.content ++ ps.flatten := by
  induction ps generalizing w with
  | nil => simp [MemFileReadCloser.writeAll]
  | cons p ps ih =>
    simp only [MemFileReadCloser.writeAll, List.foldl_cons, List.flatten_cons] at ih ⊢
    rw [ih, MemFileReadCloser.content_write, List.append_assoc]

/-- `Write` never touches the limit or the used flag. -/
theorem MemFileReadCloser.write_fields (w : MemFileReadCloser) (p : List Nat) :
    (w.write p).limit = w.limit ∧ (w.write p).used = w.used := by
  match hfh : w.fh with
  | some f =>
    rw [MemFileReadCloser.write_of_fh_some w f p hfh]
    exact ⟨rfl, rfl⟩
  | none =>
    by_cases hc : w.limit < 0 ∨ ((w.buf ++ p).length : Int) ≤ w.limit
    · rw [MemFileReadCloser.write_of_fh_none_stay w p hfh hc]
      exact ⟨rfl, rfl⟩
    · rw [MemFileReadCloser.write_of_fh_none_spill w p hfh hc]
      exact ⟨rfl, rfl⟩

theorem MemFileReadCloser.content_of_fh_none (w : MemFileReadCloser) (h : w.fh = none) :
    w.content = w.buf := by
  unfold MemFileReadCloser.content
  rw [h]

theorem MemFileReadCloser.content_of_fh_some (w : MemFileReadCloser) (f : List Nat)
    (h : w.fh = some f) : w.content = f := by
  unfold MemFileReadCloser.content
  rw [h]

/-- `Write` preserves the spill invariant. -/
theorem MemFileReadCloser.write_spillInv (w : MemFileReadCloser) (p : List Nat)
    (h : spillInv w) : spillInv (w.write p) := by
  match hfh : w.fh with
  | some f =>
    rw [MemFileReadCloser.write_of_fh_some w f p hfh]
    rcases h with ⟨hnone, _⟩ | ⟨g, hg, hpos, hlen⟩
    · rw [hfh] at hnone
      cases hnone
    · rw [hfh] at hg
      rw [Option.some.injEq] at hg
      subst hg
      refine Or.inr ⟨f ++ p, rfl, hpos, ?_⟩
      show w.limit < ((f ++ p).length : Int)
      have hle : (f.length : Int) ≤ ((f ++ p).length : Int) := by simp
      omega
  | none =>
    rcases h with ⟨_, hbuf⟩ | ⟨g, hg, _, _⟩
    · by_cases hc : w.limit < 0 ∨ ((w.buf ++ p).length : Int) ≤ w.limit
      · rw [MemFileReadCloser.write_of_fh_none_stay w p hfh hc]
        refine Or.inl ⟨hfh, fun h0 => ?_⟩
        show ((w.buf ++ p).length : Int) ≤ w.limit
        have h0l : (0 : Int) ≤ w.limit := h0
        rcases hc with hc | hc
        · omega
        · exact hc
      · rw [MemFileReadCloser.write_of_fh_none_spill w p hfh hc]
        push_neg at hc
        refine Or.inr ⟨w.buf ++ p, rfl, ?_, ?_⟩
        · show (0 : Int) ≤ w.limit
          exact hc.1
        · show w.limit < ((w.buf ++ p).length : Int)
          exact hc.2
    · rw [hfh] at hg
      cases hg

/-- `writeAll` preserves the spill invariant, the limit and the used
flag. -/
theorem MemFileReadCloser.writeAll_spillInv (w : MemFileReadCloser) (ps : List (List Nat))
    (h : spillInv w) :
    spillInv (w.writeAll ps) ∧ (w.writeAll ps).limit = w.limit ∧
      (w.writeAll ps).used = w.used := by
  induction ps generalizing w with
  | nil => exact ⟨h, rfl, rfl⟩
  | cons p ps ih =>
    have hw := MemFileReadCloser.write_fields w p
    have := ih (w.write p) (MemFileReadCloser.write_spillInv w p h)
    exact ⟨this.1, this.2.1.trans hw.1, this.2.2.trans hw.2⟩

/-- The indexed-dot test of `domainMatch` is exactly the dotted-suffix
test: for a non-empty domain with the exact-equality case excluded,
the suffix check plus "the character before the suffix is a dot" is
equivalent to `"." ++ domain` being a suffix of the host. -/
theorem suffix_dot_char_iff (d s : List Char) (hne : s ≠ d) :
    (d.isSuffixOf s = true ∧ s.getD (s.length - d.length - 1) ' ' = '.') ↔
      ('.' :: d).isSuffixOf s = true := by
  simp only [List.isSuffixOf_iff_suffix]
  constructor
  · rintro ⟨⟨t, ht⟩, hdot⟩
    have htne : t ≠ [] := by
      intro hnil
      rw [hnil] at ht
      simp only [List.nil_append] at ht
      exact hne ht.symm
    have hlen : s.length = t.length + d.length := by
      rw [← ht, List.length_append]
    have hidx : s.length - d.length - 1 = t.length - 1 := by omega
    have htlt : t.length - 1 < t.length := by
      cases t with
      | nil => exact absurd rfl htne
      | cons a as => simp
    have hget : s.getD (t.length - 1) ' ' = t.getLast htne := by
      rw [← ht, List.getD_eq_getElem?_getD, List.getElem?_append, if_pos htlt,
        List.getElem?_eq_getElem htlt, List.getLast_eq_getElem]
      rfl
    rw [hidx, hget] at hdot
    have hsplit : t.dropLast ++ ['.'] = t := by
      rw [← hdot]
      exact List.dropLast_append_getLast htne
    refine ⟨t.dropLast, ?_⟩
    rw [← ht, ← hsplit]
    simp
  · rintro ⟨t, ht⟩
    have hsuf : d <:+ s := ⟨t ++ ['.'], by rw [← ht]; simp⟩
    have hlen : s.length = t.length + (d.length + 1) := by
      rw [← ht, List.length_append]
      simp
    have hidx : s.length - d.length - 1 = t.length := by omega
    refine ⟨hsuf, ?_⟩
    rw [hidx, ← ht, List.getD_eq_getElem?_getD,
      List.getElem?_append_right (le_refl t.length)]
    simp

/-- C7: for every write sequence `W` to a fresh spool, the reader
yields exactly the concatenation of `W`; with a non-negative limit a
temp file exists exactly when the total length exceeds the limit, and
with a negative limit no temp file is ever created. -/
theorem c7_spool_content_and_spill (dir : GoStr) (limit : Int) (W : List (List Nat)) :
    ((NewMemFileReadCloser dir limit).writeAll W).content = W.flatten ∧
    ((NewMemFileReadCloser dir limit).writeAll W).readCloser =
      .ok (W.flatten, { (NewMemFileReadCloser dir limit).writeAll W with used := true }) ∧
    (0 ≤ limit →
      (((NewMemFileReadCloser dir limit).writeAll W).fh.isSome = true ↔
        limit < (W.flatten.length : Int))) ∧
    (limit < 0 → ((NewMemFileReadCloser dir limit).writeAll W).fh = none) := by
  have hinv0 : spillInv (NewMemFileReadCloser dir limit) := by
    refine Or.inl ⟨rfl, fun h0 => ?_⟩
    show ((([] : List Nat)).length : Int) ≤ limit
    simpa using h0
  have hall := MemFileReadCloser.writeAll_spillInv (NewMemFileReadCloser dir limit) W hinv0
  have hcontent : ((NewMemFileReadCloser dir limit).writeAll W).content = W.flatten := by
    have h := MemFileReadCloser.content_writeAll (NewMemFileReadCloser dir limit) W
    simpa [NewMemFileReadCloser, MemFileReadCloser.content] using h
  have hlimit : ((NewMemFileReadCloser dir limit).writeAll W).limit = limit := hall.2.1
  have hused : ((NewMemFileReadCloser dir limit).writeAll W).used = false := hall.2.2
  refine ⟨hcontent, ?_, ?_, ?_⟩
  · simp [MemFileReadCloser.readCloser, hused, hcontent]
  · intro h0
    rcases hall.1 with ⟨hnone, hbound⟩ | ⟨f, hf, hpos, hlen⟩
    · have hcb := MemFileReadCloser.content_of_fh_none _ hnone
      rw [hcontent] at hcb
      have hb := hbound (by rw [hlimit]; exact h0)
      rw [hlimit] at hb
      rw [hnone]
      simp only [Option.isSome_none]
      constructor
      · intro hx
        cases hx
      · intro hx
        exfalso
        rw [hcb] at hx
        omega
    · have hcf := MemFileReadCloser.content_of_fh_some _ f hf
      rw [hcontent] at hcf
      rw [hlimit] at hlen
      rw [hf]
      simp only [Option.isSome_some, eq_self_iff_true, true_iff]
      rw [hcf]
      exact hlen
  · intro hneg
    rcases hall.1 with ⟨hnone, _⟩ | ⟨f, hf, hpos, _⟩
    · exact hnone
    · exfalso
      rw [hlimit] at hpos
      omega

/-- C7 witness: limit 1 with writes [7] then [8, 9] — three bytes total
exceed the limit, the reader yields [7, 8, 9] and a temp file exists. -/
theorem c7_spool_content_and_spill_witness :
    ((NewMemFileReadCloser [] 1).writeAll [[7], [8, 9]]).content = [7, 8, 9] ∧
    ((NewMemFileReadCloser [] 1).writeAll [[7], [8, 9]]).fh.isSome = true := by
  have h := c7_spool_content_and_spill [] 1 [[7], [8, 9]]
  refine ⟨h.1.trans (by decide), ?_⟩
  exact (h.2.2.1 (by decide)).mpr (by decide)

/-- C6: during AuthDo's challenge iteration, a builder error makes the
driver continue exactly when the error is NoCredentials and at least
one challenge remains; NoCredentials on the last challenge, and every
other builder error at any position, abort the iteration and are
returned. -/
theorem c6_driver_continue_policy (builder : Challenge → Except AuthErr GoStr)
    (hrDo : Challenge → GoStr → DoResult) (c : Challenge) (rest : List Challenge)
    (acc : AuthDoResult) (e : AuthErr) (h : builder c = .error e) :
    (e = .noCredentials → rest ≠ [] →
      authDoLoop builder hrDo (c :: rest) acc = authDoLoop builder hrDo rest acc) ∧
    (e = .noCredentials → rest = [] →
      authDoLoop builder hrDo (c :: rest) acc = .builderErr .noCredentials) ∧
    (e ≠ .noCredentials →
      authDoLoop builder hrDo (c :: rest) acc = .builderErr e) := by
  refine ⟨?_, ?_, ?_⟩
  · intro he hr
    simp [authDoLoop, h, he, hr]
  · intro he hr
    subst he hr
    simp [authDoLoop, h]
  · intro he
    simp [authDoLoop, h, he]

/-- C6 witness: the continue case at a NoCredentials-everywhere
builder with one remaining challenge, and the abort case at an
unhandled-algorithm error on a sole challenge. -/
theorem c6_driver_continue_policy_witness :
    (authDoLoop (fun _ => .error .noCredentials) (fun _ _ => .response 200)
        [fooChallenge, basicChallenge] (.response 401) =
      authDoLoop (fun _ => .error .noCredentials) (fun _ _ => .response 200)
        [basicChallenge] (.response 401)) ∧
    (authDoLoop (fun _ => .error (.unhandledAlgorithm (str "X"))) (fun _ _ => .response 200)
        [fooChallenge] (.response 401) = .builderErr (.unhandledAlgorithm (str "X"))) := by
  refine ⟨?_, ?_⟩
  · exact (c6_driver_continue_policy (fun _ => .error .noCredentials)
      (fun _ _ => .response 200) fooChallenge [basicChallenge] (.response 401)
      .noCredentials rfl).1 rfl (by decide)
  · exact (c6_driver_continue_policy (fun _ => .error (.unhandledAlgorithm (str "X")))
      (fun _ _ => .response 200) fooChallenge [] (.response 401)
      (.unhandledAlgorithm (str "X")) rfl).2.2 (by decide)

/-- C8: a credential whose stored domain is lowercase (as `NewCredential`
and the JSON loader guarantee) domain-matches a host exactly when the
domain is empty, the host equals it case-insensitively, the domain has
a dot and the lowercased host ends with "." followed by the domain, or
the domain starts with "." and the lowercased host ends with it; in
particular ".example.org" matches "login.example.org" but not
"example.org". -/
theorem c8_domain_match_characterization :
    (∀ (c : Credential) (h : GoStr), c.Domain = lowerStr c.Domain →
      (c.domainMatch h = true ↔
        c.Domain = [] ∨ lowerStr h = lowerStr c.Domain ∨
        (1 ≤ countChar '.' c.Domain ∧ ('.' :: c.Domain).isSuffixOf (lowerStr h) = true) ∨
        ((str ".").isPrefixOf c.Domain = true ∧ c.Domain.isSuffixOf (lowerStr h) = true))) ∧
    (NewCredential (str ".example.org") [] [] []).domainMatch (str "login.example.org") = true ∧
    (NewCredential (str ".example.org") [] [] []).domainMatch (str "example.org") = false := by
  refine ⟨?_, by decide, by decide⟩
  intro c h hlow
  rw [← hlow]
  simp only [Credential.domainMatch]
  generalize lowerStr h = s
  by_cases h1 : c.Domain = []
  · refine iff_of_true ?_ (Or.inl h1)
    simp [h1]
  by_cases h2 : c.Domain = s
  · refine iff_of_true ?_ (Or.inr (Or.inl h2.symm))
    simp [h2]
  have hne : s ≠ c.Domain := fun heq => h2 heq.symm
  have key := suffix_dot_char_iff c.Domain s hne
  rw [if_neg (by simp [h1, h2])]
  by_cases hsc : (c.Domain.isSuffixOf s && decide (1 ≤ countChar '.' c.Domain)) = true
  · rw [if_pos hsc]
    rw [Bool.and_eq_true, decide_eq_true_iff] at hsc
    by_cases h5 : (s.getD (s.length - c.Domain.length - 1) ' ' == '.') = true
    · rw [if_pos h5]
      rw [beq_iff_eq] at h5
      refine iff_of_true rfl (Or.inr (Or.inr (Or.inl ⟨hsc.2, key.mp ⟨hsc.1, h5⟩⟩)))
    · rw [if_neg h5]
      rw [Bool.and_eq_true]
      constructor
      · intro hp
        exact Or.inr (Or.inr (Or.inr hp))
      · rintro (hx | hx | ⟨_, hdot⟩ | hx)
        · exact absurd hx h1
        · exact absurd hx.symm h2
        · exact absurd (beq_iff_eq.mpr (key.mpr hdot).2) h5
        · exact hx
  · rw [if_neg hsc]
    rw [Bool.and_eq_true]
    constructor
    · intro hp
      exact Or.inr (Or.inr (Or.inr hp))
    · rintro (hx | hx | ⟨hcnt, hdot⟩ | hx)
      · exact absurd hx h1
      · exact absurd hx.symm h2
      · refine absurd ?_ hsc
        rw [Bool.and_eq_true, decide_eq_true_iff]
        exact ⟨(key.mpr hdot).1, hcnt⟩
      · exact hx

/-- C8 witness: the general characterization applied to the concrete
credential domain "example.org" and host "www.example.org". -/
theorem c8_domain_match_characterization_witness :
    (NewCredential (str "example.org") [] [] []).domainMatch (str "www.example.org") = true := by
  exact (c8_domain_match_characterization.1 (NewCredential (str "example.org") [] [] [])
    (str "www.example.org") (by decide)).mpr (by decide)

/-- A successful map lookup means removing the key drops exactly one
element. -/
theorem findNonce_some_length (key : GoStr) (l : List CounterItem) (p : CounterItem)
    (h : findNonce key l = some p) : (removeNonce key l).length + 1 = l.length := by
  induction l with
  | nil => cases h
  | cons it rest ih =>
    by_cases hk : (it.k == key) = true
    · simp [removeNonce, hk]
    · simp only [findNonce, hk, if_neg, Bool.false_eq_true, if_false] at h
      simp only [removeNonce, hk, Bool.false_eq_true, if_false, List.length_cons]
      have hr := ih h
      omega

/-- One `Next` call preserves the size bound and the capacity. -/
theorem NonceCounter.next_length_le (nc : NonceCounter) (x : GoStr) (hcap : 1 ≤ nc.cap)
    (hlen : nc.ll.length ≤ nc.cap) :
    (nc.next x).2.ll.length ≤ nc.cap ∧ (nc.next x).2.cap = nc.cap := by
  unfold NonceCounter.next
  cases hf : findNonce x nc.ll with
  | some p =>
    simp only [hf]
    refine ⟨?_, trivial⟩
    have := findNonce_some_length x nc.ll p hf
    simp only [List.length_cons]
    omega
  | none =>
    simp only [hf]
    refine ⟨?_, trivial⟩
    by_cases he : nc.ll.length = nc.cap
    · rw [if_pos he]
      simp only [List.length_cons, List.length_dropLast]
      omega
    · rw [if_neg he]
      simp only [List.length_cons]
      omega

/-- Any sequence of `Next` calls preserves the size bound and the
capacity. -/
theorem NonceCounter.run_length_le (nc : NonceCounter) (ns : List GoStr) (hcap : 1 ≤ nc.cap)
    (hlen : nc.ll.length ≤ nc.cap) :
    (nc.run ns).ll.length ≤ nc.cap ∧ (nc.run ns).cap = nc.cap := by
  induction ns generalizing nc with
  | nil => exact ⟨hlen, rfl⟩
  | cons x xs ih =>
    have hstep := NonceCounter.next_length_le nc x hcap hlen
    have hrec := ih (nc.next x).2 (by rw [hstep.2]; exact hcap) (by rw [hstep.2]; exact hstep.1)
    have hrun : nc.run (x :: xs) = ((nc.next x).2).run xs := by
      simp [NonceCounter.run]
    rw [hrun]
    exact ⟨by rw [← hstep.2]; exact hrec.1, hrec.2.trans hstep.2⟩

/-- C9: the clamped capacity is max(cap, 1); the number of tracked
nonces never exceeds it under any call sequence; and a `Next` on an
absent nonce with the counter full removes exactly the
least-recently-used nonce (so a capacity-1 counter evicts the prior
nonce on every new nonce). -/
theorem c9_nonce_counter_capacity :
    (∀ cap : Int, (NewNonceCounter cap).cap = max 1 cap.toNat) ∧
    (∀ (cap : Int) (ns : List GoStr),
      ((NewNonceCounter cap).run ns).ll.length ≤ max 1 cap.toNat) ∧
    (∀ (nc : NonceCounter) (nonce : GoStr),
      nc.ll.length = nc.cap → findNonce nonce nc.ll = none →
      (nc.next nonce).2.keys = nonce :: nc.keys.dropLast) := by
  have hcap : ∀ cap : Int, (NewNonceCounter cap).cap = max 1 cap.toNat := by
    intro cap
    unfold NewNonceCounter
    by_cases hc : cap < 1
    · rw [if_pos hc]
      show (1 : Int).toNat = max 1 cap.toNat
      omega
    · rw [if_neg hc]
      show cap.toNat = max 1 cap.toNat
      omega
  refine ⟨hcap, ?_, ?_⟩
  · intro cap ns
    have h1 : 1 ≤ (NewNonceCounter cap).cap := by
      rw [hcap]
      omega
    have h0 : (NewNonceCounter cap).ll.length ≤ (NewNonceCounter cap).cap := by
      show (0 : Nat) ≤ (NewNonceCounter cap).cap
      omega
    have := NonceCounter.run_length_le (NewNonceCounter cap) ns h1 h0
    rw [← hcap cap]
    exact this.1
  · intro nc nonce hlen hf
    unfold NonceCounter.next
    simp only [hf]
    rw [if_pos hlen]
    simp [NonceCounter.keys, List.map_dropLast]

/-- C9 witness: the bound at capacity 1 over two distinct nonces, and
the eviction equation at a full capacity-1 counter holding "a" hit
with the new nonce "b". -/
theorem c9_nonce_counter_capacity_witness :
    ((NewNonceCounter 1).run [str "a", str "b"]).ll.length ≤ max 1 (1 : Int).toNat ∧
    (({ ll := [⟨str "a", 1⟩], cap := 1 } : NonceCounter).next (str "b")).2.keys = [str "b"] := by
  refine ⟨c9_nonce_counter_capacity.2.1 1 [str "a", str "b"], ?_⟩
  exact c9_nonce_counter_capacity.2.2 { ll := [⟨str "a", 1⟩], cap := 1 } (str "b")
    (by decide) (by decide)

/-- C10: `AuthPath.Matches` is total on entries whose path is
non-empty, so every cache populated only with non-empty paths is safe;
but an entry with an empty path makes `Matches` hit the out-of-range
index `ap.Path[-1]` on any non-empty request path, and such an entry
is insertable through `AuthCache.Set` with an empty-path URI, making
the panic reachable from the public `Get`. -/
theorem c10_authpath_matches_partiality :
    (∀ (ap : AuthPath) (path : GoStr), ap.Path ≠ [] → (ap.MatchesT path).isSome = true) ∧
    (∀ (auth path : GoStr), path ≠ [] → AuthPath.MatchesT ⟨[], auth⟩ path = none) ∧
    authCacheGet (authCacheSet [] { Scheme := str "http", Host := str "h" } (str "a"))
      { Scheme := str "http", Host := str "h", Path := str "/x" } = none := by
  refine ⟨?_, ?_, by decide⟩
  · intro ap path hne
    simp only [AuthPath.MatchesT]
    split_ifs <;> simp_all
  · intro auth path hne
    simp only [AuthPath.MatchesT]
    rw [if_neg (fun h => hne h.symm)]
    have hp : ([] : GoStr).isPrefixOf path = true := by
      cases path <;> rfl
    rw [if_pos hp]
    rfl

/-- C10 witness: totality at the concrete non-empty entry path "/a"
matched against "/a/b". -/
theorem c10_authpath_matches_partiality_witness :
    ((AuthPath.mk (str "/a") (str "x")).MatchesT (str "/a/b")).isSome = true := by
  exact c10_authpath_matches_partiality.1 ⟨str "/a", str "x"⟩ (str "/a/b") (by decide)
